import Mathlib

/-!
Verification development for the scribe image-strip correlation pipeline.

Signal values (grayscale column averages, reference values, correlation
scores) are modelled as rationals; the Python implementation uses IEEE
floats, and every claim treated here concerns structural behaviour
(lengths, index selection, branch conditions, orderings) that is
independent of rounding.
-/

namespace Scribe

/-- Models Python str.isdigit for ASCII strings: the string is nonempty and
every character is a decimal digit.  (Python additionally accepts some
non-ASCII Unicode digit characters; inputs are restricted to ASCII here.)
Used by validate_and_process_json in src/process_slices.py. -/
def pyIsDigit (s : String) : Bool := !s.isEmpty && s.toList.all Char.isDigit

/-- JSON values as produced by Python json.load: integers, floats, booleans,
strings and null.  (Arrays and objects are omitted: no claim involves them,
and the validator treats them like any other non-numeric value.)  Floats
are modelled as rationals. -/
inductive JsonValue where
  | int : ℤ → JsonValue
  | float : ℚ → JsonValue
  | bool : Bool → JsonValue
  | str : String → JsonValue
  | null : JsonValue
deriving DecidableEq

/-- Models the Python check isinstance(value, (int, float)) from
validate_and_process_json in src/process_slices.py.  Python bool is a
subclass of int, so booleans pass this check. -/
def isNumericPy : JsonValue → Bool
  | .int _ => true
  | .float _ => true
  | .bool _ => true
  | _ => false

/-- Follows the specification text describing acceptable reference values
(an integer or a real number): true exactly on int and float values, so a
boolean is neither.  Used only to state what the specification asks of the
validator, for comparison with the check the code performs. -/
def isIntOrReal : JsonValue → Bool
  | .int _ => true
  | .float _ => true
  | _ => false

/-- An entry of the reference mapping that fails validation: key not all
decimal digits, or value not numeric in the Python sense. -/
def invalidEntry (kv : String × JsonValue) : Bool :=
  !(pyIsDigit kv.1) || !(isNumericPy kv.2)

/-- Embeds validate_and_process_json from src/process_slices.py.  The JSON
mapping is modelled as an association list in insertion order (Python dicts
iterate in insertion order).  The Python loop raises ValueError at the
first invalid entry, so no partial result escapes; on success the mapping
is returned verbatim. -/
def validate_and_process_json (data : List (String × JsonValue)) :
    Except String (List (String × JsonValue)) :=
  match data.find? invalidEntry with
  | some kv => Except.error ("Invalid entry in JSON file: " ++ kv.1)
  | none => Except.ok data

/-- Arithmetic mean of a list, as computed by np.mean. -/
def mean (l : List ℚ) : ℚ := l.sum / l.length

/-- Embeds calculate_correlation_results from src/process_slices.py.
Inputs: json_values (the reference vector, list(json_data.values())) and
column_averages (the column profile).  Both means are taken once over the
full lists before any substitution.  The Python body reads
column_averages[i + j] and substitutes 0 on IndexError, which for i + j >= 0
happens exactly when i + j is past the end of the list; List.getD models
this.  The second component counts the distinct offsets i for which at
least one inner access was out of range (the Python code records each such
i once in a set and reports the set size); the correlation scores
themselves are all kept. -/
def calculate_correlation_results (json_values column_averages : List ℚ) :
    List ℚ × ℕ :=
  let json_avg := mean json_values
  let column_avg_of_avgs := mean column_averages
  let results := (List.range column_averages.length).map fun i =>
    ((List.range json_values.length).map fun j =>
      (json_values.getD j 0 - json_avg) *
        (column_averages.getD (i + j) 0 - column_avg_of_avgs)).sum
  let oob := ((List.range column_averages.length).filter fun i =>
    (List.range json_values.length).any fun j =>
      decide (column_averages.length ≤ i + j)).length
  (results, oob)

/-- Decides whether index m of the sequence s is reported as a local maximum
by scipy.signal.find_peaks (called with no keyword arguments, as both
find_peaks_in_correlation implementations do).  Per the scipy definition, a
peak is a maximal run of equal samples s[l] = ... = s[r] with
s[l-1] < s[l] and s[r+1] < s[r] (so 1 <= l and r <= length - 2); the
reported index is the midpoint (l + r) / 2, rounded down.  A run of length
one is the ordinary strict local maximum; a flat plateau reports its middle
sample.  Sequence endpoints are never reported. -/
def plateauPeakAt (s : List ℚ) (m : ℕ) : Bool :=
  (List.range s.length).any fun l =>
    (List.range s.length).any fun r =>
      decide (1 ≤ l) && decide (l ≤ r) && decide (r + 2 ≤ s.length) &&
      decide (s.getD (l - 1) 0 < s.getD l 0) &&
      decide (s.getD (r + 1) 0 < s.getD r 0) &&
      ((List.range (r - l)).all fun k =>
        decide (s.getD (l + 1 + k) 0 = s.getD l 0)) &&
      decide (m = (l + r) / 2)

/-- Embeds scipy.signal.find_peaks on the smoothed sequence: the ascending
list of reported local-maximum indices (see plateauPeakAt). -/
def find_peaks (s : List ℚ) : List ℕ :=
  (List.range s.length).filter (plateauPeakAt s)

/-- The ordering used by the Python call
sorted(peaks, key=lambda x: smoothed[x], reverse=True): a comes no later
than b when the smoothed value at a is larger, or the values are equal and
a <= b.  Python sort is stable and the peak list is in ascending index
order, so the stable descending-value sort coincides with this
lexicographic order on (value descending, index ascending). -/
def peakLE (s : List ℚ) (a b : ℕ) : Prop :=
  s.getD b 0 < s.getD a 0 ∨ (s.getD a 0 = s.getD b 0 ∧ a ≤ b)

instance peakLE.instDecidableRel (s : List ℚ) : DecidableRel (peakLE s) :=
  fun a b =>
    inferInstanceAs (Decidable (s.getD b 0 < s.getD a 0 ∨
      (s.getD a 0 = s.getD b 0 ∧ a ≤ b)))

instance peakLE.instIsTotal (s : List ℚ) : IsTotal ℕ (peakLE s) where
  total a b := by
    rcases lt_trichotomy (s.getD a 0) (s.getD b 0) with h | h | h
    · exact Or.inr (Or.inl h)
    · rcases Nat.le_total a b with hab | hab
      · exact Or.inl (Or.inr ⟨h, hab⟩)
      · exact Or.inr (Or.inr ⟨h.symm, hab⟩)
    · exact Or.inl (Or.inl h)

instance peakLE.instIsTrans (s : List ℚ) : IsTrans ℕ (peakLE s) where
  trans a b c hab hbc := by
    rcases hab with h1 | ⟨h1, h1n⟩ <;> rcases hbc with h2 | ⟨h2, h2n⟩
    · exact Or.inl (h2.trans h1)
    · exact Or.inl (h2 ▸ h1)
    · exact Or.inl (h1 ▸ h2)
    · exact Or.inr ⟨h1.trans h2, h1n.trans h2n⟩

/-- The peak candidates sorted by smoothed value descending (stable), as
produced by sorted(peaks, key=lambda x: smoothed[x], reverse=True) in both
find_peaks_in_correlation implementations. -/
def sortPeaksDesc (s : List ℚ) (peaks : List ℕ) : List ℕ :=
  peaks.insertionSort (peakLE s)

/-- Renders a list of indices the way a Python f-string renders a list of
ints, for the status messages. -/
def pyListStr (l : List ℕ) : String :=
  let sep : String := ", "
  let body := sep.intercalate (l.map toString)
  "[" ++ body ++ "]"

/-- Status text prefix for the more-than-2-peaks branch (both files). -/
def moreThanTwoMsg : String := "More than 2 peaks found: "

/-- Status text for the fewer-than-2-peaks branch (both files). -/
def lessThanTwoMsg : String := "Less than 2 peaks found."

/-- Status text for the exactly-2-peaks branch (both files). -/
def twoMsg : String := "Two peaks found."

/-- Embeds find_peaks_in_correlation from src/process_slices.py, from the
point after the external scipy gaussian_filter1d call: the argument is the
already-smoothed sequence (the smoothing is floating-point library code;
every property stated here concerns the detection and selection logic on
the smoothed values).  Note the more-than-2 branch returns
sorted_peaks[:2] as is (descending smoothed value) and the exactly-2
branch returns sorted_peaks as is: this file has no re-sort by index. -/
def find_peaks_in_correlation_slices (smoothed : List ℚ) : List ℕ × String :=
  let sorted_peaks := sortPeaksDesc smoothed (find_peaks smoothed)
  if 2 < sorted_peaks.length then
    (sorted_peaks.take 2, moreThanTwoMsg ++ pyListStr sorted_peaks)
  else if sorted_peaks.length < 2 then
    (sorted_peaks, lessThanTwoMsg)
  else
    (sorted_peaks, twoMsg)

/-- Embeds find_peaks_in_correlation from
src/process_correlation_results.py, from the point after the external
scipy gaussian_filter1d call (see find_peaks_in_correlation_slices).  This
file applies sorted(...) to the kept peaks in the more-than-2 and
exactly-2 branches, so the returned pair is in ascending index order. -/
def find_peaks_in_correlation_results (smoothed : List ℚ) :
    List ℕ × String :=
  let sorted_peaks := sortPeaksDesc smoothed (find_peaks smoothed)
  if 2 < sorted_peaks.length then
    ((sorted_peaks.take 2).insertionSort (· ≤ ·),
      moreThanTwoMsg ++ pyListStr sorted_peaks)
  else if sorted_peaks.length < 2 then
    (sorted_peaks, lessThanTwoMsg)
  else
    (sorted_peaks.insertionSort (· ≤ ·), twoMsg)

/-- Embeds read_shift_from_json from src/overlay.py: the global shift is
the number of keys of the reference mapping, integer-divided by 2. -/
def read_shift_from_json (data : List (String × JsonValue)) : ℕ :=
  data.length / 2

/-- Embeds the per-strip drawing logic of overlay_peaks_on_images from
src/overlay.py: when fewer than 2 peak indices were read the strip is
skipped (none, with only a warning logged); otherwise each peak is shifted
by the global shift and a vertical line is drawn at every shifted
coordinate that lies inside [0, width) — coordinates outside are silently
not drawn.  Peak indices are natural numbers, so the lower bound 0 <=
shifted_peak of the Python test holds automatically.  The result lists the
drawn x-coordinates in drawing order. -/
def overlay_strip (shift width : ℕ) (peak_indices : List ℕ) :
    Option (List ℕ) :=
  if peak_indices.length < 2 then none
  else some ((peak_indices.map fun p => p + shift).filter
    fun c => decide (c < width))

/-- Models statistics.stdev from the Python standard library: it raises
StatisticsError unless given at least two data points.  The returned
number is modelled as the sample variance (the square of the standard
deviation), since the square root leaves the rationals; every claim
treated here depends only on whether the statistic is computed, not on its
value. -/
def stdev (l : List ℚ) : Except String ℚ :=
  if 2 ≤ l.length then
    Except.ok (((l.map fun x => (x - mean l) ^ 2).sum) / ((l.length : ℚ) - 1))
  else
    Except.error ("stdev requires at least two data points")

/-- One strip as seen by the aggregator in
src/process_correlation_results.py: its slice index (parsed from the
folder name), the peak indices returned by find_peaks_in_correlation on
its correlation sequence, and the correlation sequence itself. -/
structure StripRecord where
  sliceIndex : ℕ
  peaks : List ℕ
  corr : List ℚ
deriving DecidableEq

/-- One row of the aggregate table: the strip with exactly 2 peaks
contributes (index, some (p1 index, p1 value, p2 index, p2 value)); any
other strip contributes a row with null peak fields, as in
process_correlation_results. -/
def stripRow (t : StripRecord) : ℕ × Option (ℕ × ℚ × ℕ × ℚ) :=
  if t.peaks.length = 2 then
    (t.sliceIndex,
      some (t.peaks.getD 0 0, t.corr.getD (t.peaks.getD 0 0) 0,
        t.peaks.getD 1 0, t.corr.getD (t.peaks.getD 1 0) 0))
  else
    (t.sliceIndex, none)

/-- Ordering of aggregate-table rows by slice index, as used by
table_rows.sort(key=lambda x: x[0]). -/
def rowLE (a b : ℕ × Option (ℕ × ℚ × ℕ × ℚ)) : Prop := a.1 ≤ b.1

instance rowLE.instDecidableRel : DecidableRel rowLE :=
  fun a b => inferInstanceAs (Decidable (a.1 ≤ b.1))

/-- The aggregate report: the table rows (sorted by slice index) and, when
the statistics branch runs, the four dispersion statistics in the order
the code computes them: (P1 values, P1 indices, P2 values, P2 indices). -/
structure AggReport where
  rows : List (ℕ × Option (ℕ × ℚ × ℕ × ℚ))
  stats : Option (ℚ × ℚ × ℚ × ℚ)
deriving DecidableEq

/-- Embeds the aggregation core of process_correlation_results from
src/process_correlation_results.py.  For each strip whose peak list has
exactly 2 entries, the peak indices and correlation values are appended to
the four running collections; every strip contributes a table row
(stripRow); the table is sorted by slice index.  The statistics branch is
guarded by the Python truthiness test `if peak_values_1 and peak_values_2`
— that is, by the collections being NONEMPTY, not by their having at least
2 elements — and then calls statistics.stdev on each collection in the
order value1, value2, index1, index2; an uncaught StatisticsError
propagates as Except.error and aborts the run.  When the guard fails, only
a warning is logged and the report is emitted without statistics. -/
def process_correlation_results (strips : List StripRecord) :
    Except String AggReport :=
  let twoPeak := strips.filter fun t => decide (t.peaks.length = 2)
  let peak_indices_1 := twoPeak.map fun t => ((t.peaks.getD 0 0 : ℕ) : ℚ)
  let peak_values_1 := twoPeak.map fun t => t.corr.getD (t.peaks.getD 0 0) 0
  let peak_indices_2 := twoPeak.map fun t => ((t.peaks.getD 1 0 : ℕ) : ℚ)
  let peak_values_2 := twoPeak.map fun t => t.corr.getD (t.peaks.getD 1 0) 0
  let rows := (strips.map stripRow).insertionSort rowLE
  if peak_values_1.isEmpty || peak_values_2.isEmpty then
    Except.ok ⟨rows, none⟩
  else do
    let v1 ← stdev peak_values_1
    let v2 ← stdev peak_values_2
    let i1 ← stdev peak_indices_1
    let i2 ← stdev peak_indices_2
    Except.ok ⟨rows, some (v1, i1, v2, i2)⟩

/-! Helper lemmas shared by several claim theorems. -/

/-- Reading index i of the map of a function over List.range n gives the
function value, for i below n. -/
theorem getD_map_range (f : ℕ → ℚ) (n i : ℕ) (h : i < n) :
    ((List.range n).map f).getD i 0 = f i := by
  simp [List.getD_eq_getElem?_getD, List.getElem?_map, List.getElem?_range, h]

/-- Length of a Bool filter over List.range equals the cardinality of the
corresponding Finset.range filter. -/
theorem length_filter_range (p : ℕ → Bool) :
    ∀ n : ℕ, ((List.range n).filter p).length =
      ((Finset.range n).filter (fun i => p i = true)).card := by
  intro n
  induction n with
  | zero => simp
  | succ m ih =>
    rw [List.range_succ, Finset.range_succ, List.filter_append, List.length_append,
      Finset.filter_insert]
    by_cases h : p m = true
    · rw [if_pos h, Finset.card_insert_of_not_mem (by simp), ← ih]
      simp [h]
    · rw [if_neg h, ← ih]
      simp [h]

/-- The out-of-range counter of the Correlator equals the number of offsets
i in [0, W) at which some reference index j reaches past the profile. -/
theorem oob_card (R P : List ℚ) :
    (calculate_correlation_results R P).2 =
      ((Finset.range P.length).filter
        (fun i => ∃ j < R.length, P.length ≤ i + j)).card := by
  unfold calculate_correlation_results
  dsimp only
  rw [length_filter_range]
  congr 1
  apply Finset.filter_congr
  intro x _
  simp [List.any_eq_true, List.mem_range]

/-- A successful validation happens exactly when no entry is invalid. -/
theorem validate_ok_of_valid (data : List (String × JsonValue))
    (h : ∀ kv ∈ data, invalidEntry kv = false) :
    validate_and_process_json data = Except.ok data := by
  unfold validate_and_process_json
  have hnone : data.find? invalidEntry = none :=
    List.find?_eq_none.mpr (fun x hx => by simp [h x hx])
  rw [hnone]

/-- Any invalid entry makes validation fail with an error, so no partial
result is returned. -/
theorem validate_error_of_invalid (data : List (String × JsonValue))
    (h : ∃ kv ∈ data, invalidEntry kv = true) :
    ∃ msg, validate_and_process_json data = Except.error msg := by
  have hsome : (data.find? invalidEntry).isSome := List.find?_isSome.mpr h
  rcases Option.isSome_iff_exists.mp hsome with ⟨kv, hkv⟩
  exact ⟨"Invalid entry in JSON file: " ++ kv.1, by
    unfold validate_and_process_json
    rw [hkv]⟩

/-- Characterization of the indices reported by the embedded
scipy.signal.find_peaks: a maximal flat run strictly above both flanks,
reported at its midpoint. -/
theorem plateauPeakAt_iff (s : List ℚ) (m : ℕ) :
    plateauPeakAt s m = true ↔
    ∃ l r, 1 ≤ l ∧ l ≤ r ∧ r + 2 ≤ s.length ∧
      s.getD (l - 1) 0 < s.getD l 0 ∧ s.getD (r + 1) 0 < s.getD r 0 ∧
      (∀ k < r - l, s.getD (l + 1 + k) 0 = s.getD l 0) ∧ m = (l + r) / 2 := by
  unfold plateauPeakAt
  simp only [List.any_eq_true, List.mem_range, Bool.and_eq_true, decide_eq_true_eq,
    List.all_eq_true]
  constructor
  · rintro ⟨l, _, r, _, ⟨⟨⟨⟨⟨hl, hlr⟩, hrlen⟩, hleft⟩, hright⟩, hflat⟩, hmid⟩
    exact ⟨l, r, hl, hlr, hrlen, hleft, hright, fun k hk => hflat k hk, hmid⟩
  · rintro ⟨l, r, hl, hlr, hrlen, hleft, hright, hflat, hmid⟩
    exact ⟨l, by omega, r, by omega, ⟨⟨⟨⟨⟨hl, hlr⟩, hrlen⟩, hleft⟩,
      hright⟩, fun k hk => hflat k hk⟩, hmid⟩

/-- Membership in find_peaks is exactly the plateau-peak predicate. -/
theorem mem_find_peaks_iff (s : List ℚ) (m : ℕ) :
    m ∈ find_peaks s ↔ plateauPeakAt s m = true := by
  unfold find_peaks
  rw [List.mem_filter, List.mem_range]
  constructor
  · exact fun h => h.2
  · intro h
    refine ⟨?_, h⟩
    rcases (plateauPeakAt_iff s m).mp h with ⟨l, r, _, _, _, _, _, _, hmid⟩
    omega

/-- Every sample of a flat run takes the value of its left edge. -/
theorem run_value (s : List ℚ) (l r k : ℕ)
    (hflat : ∀ k < r - l, s.getD (l + 1 + k) 0 = s.getD l 0)
    (hlk : l ≤ k) (hkr : k ≤ r) : s.getD k 0 = s.getD l 0 := by
  rcases Nat.eq_or_lt_of_le hlk with h | h
  · rw [← h]
  · have hval := hflat (k - l - 1) (by omega)
    have hidx : l + 1 + (k - l - 1) = k := by omega
    rwa [hidx] at hval

/-- Sorting the peak candidates never introduces new indices. -/
theorem mem_sortPeaksDesc (s : List ℚ) (p : List ℕ) (x : ℕ)
    (h : x ∈ sortPeaksDesc s p) : x ∈ p :=
  (List.mem_insertionSort _).mp h

/-- Every index returned by the process_slices detector is a find_peaks
candidate. -/
theorem mem_detector_sub_slices (s : List ℚ) (x : ℕ)
    (h : x ∈ (find_peaks_in_correlation_slices s).1) : x ∈ find_peaks s := by
  unfold find_peaks_in_correlation_slices at h
  by_cases h1 : 2 < (sortPeaksDesc s (find_peaks s)).length
  · rw [if_pos h1] at h
    exact mem_sortPeaksDesc s _ x (List.mem_of_mem_take h)
  · rw [if_neg h1] at h
    by_cases h2 : (sortPeaksDesc s (find_peaks s)).length < 2
    · rw [if_pos h2] at h
      exact mem_sortPeaksDesc s _ x h
    · rw [if_neg h2] at h
      exact mem_sortPeaksDesc s _ x h

/-- Every index returned by the process_correlation_results detector is a
find_peaks candidate. -/
theorem mem_detector_sub_results (s : List ℚ) (x : ℕ)
    (h : x ∈ (find_peaks_in_correlation_results s).1) : x ∈ find_peaks s := by
  unfold find_peaks_in_correlation_results at h
  by_cases h1 : 2 < (sortPeaksDesc s (find_peaks s)).length
  · rw [if_pos h1] at h
    exact mem_sortPeaksDesc s _ x
      (List.mem_of_mem_take ((List.mem_insertionSort _).mp h))
  · rw [if_neg h1] at h
    by_cases h2 : (sortPeaksDesc s (find_peaks s)).length < 2
    · rw [if_pos h2] at h
      exact mem_sortPeaksDesc s _ x h
    · rw [if_neg h2] at h
      exact mem_sortPeaksDesc s _ x ((List.mem_insertionSort _).mp h)

/-- The Python sort key order implies the smoothed value of the left
element dominates. -/
theorem peakLE_to_le (s : List ℚ) (a b : ℕ) (h : peakLE s a b) :
    s.getD b 0 ≤ s.getD a 0 := by
  rcases h with h | ⟨h, _⟩
  · exact le_of_lt h
  · exact le_of_eq h.symm

/-! Claim theorems. -/

/-- C1: for every column profile P of length W at least 1 and reference
vector R of length N at least 1, the Correlator returns a sequence of
length exactly W whose entry at offset i equals the sum over j below N of
(R j minus mean R) times (Phat (i plus j) minus mean P), where Phat reads
the profile inside [0, W) and substitutes 0 past the end, and both means
are those of the full original inputs. -/
theorem c1_theorem (R P : List ℚ) (hR : 1 ≤ R.length) (hP : 1 ≤ P.length) :
    (calculate_correlation_results R P).1.length = P.length ∧
    ∀ i < P.length, (calculate_correlation_results R P).1.getD i 0 =
      ∑ j ∈ Finset.range R.length,
        (R.getD j 0 - mean R) *
          ((if i + j < P.length then P.getD (i + j) 0 else 0) - mean P) := by
  constructor
  · simp [calculate_correlation_results]
  · intro i hi
    unfold calculate_correlation_results
    dsimp only
    rw [getD_map_range _ _ _ hi]
    have hsum : ((List.range R.length).map fun j =>
        (R.getD j 0 - mean R) * (P.getD (i + j) 0 - mean P)).sum =
        ∑ j ∈ Finset.range R.length,
          (R.getD j 0 - mean R) * (P.getD (i + j) 0 - mean P) := rfl
    rw [hsum]
    apply Finset.sum_congr rfl
    intro j _
    by_cases hij : i + j < P.length
    · rw [if_pos hij]
    · rw [if_neg hij, List.getD_eq_default _ _ (Nat.le_of_not_lt hij)]

/-- C1 witness: the theorem applied to R = [1, 2] and P = [1, 2, 3] at
offset 2, the offset whose window runs past the profile. -/
theorem c1_witness :
    1 ≤ ([1, 2] : List ℚ).length ∧ 1 ≤ ([1, 2, 3] : List ℚ).length ∧
    (calculate_correlation_results [1, 2] [1, 2, 3]).1.getD 2 0 =
      ∑ j ∈ Finset.range ([1, 2] : List ℚ).length,
        (([1, 2] : List ℚ).getD j 0 - mean [1, 2]) *
          ((if 2 + j < ([1, 2, 3] : List ℚ).length then
            ([1, 2, 3] : List ℚ).getD (2 + j) 0 else 0) - mean [1, 2, 3]) :=
  ⟨by decide, by decide,
    (c1_theorem [1, 2] [1, 2, 3] (by decide) (by decide)).2 2 (by decide)⟩

/-- C6: the out-of-range count reported by the Correlator equals the number
of distinct offsets i in [0, W) at which at least one access i + j runs
past the profile, each such offset counted once, and all W correlation
scores are kept. -/
theorem c6_theorem (R P : List ℚ) (hR : 1 ≤ R.length) (hP : 1 ≤ P.length) :
    (calculate_correlation_results R P).2 =
      ((Finset.range P.length).filter
        (fun i => ∃ j < R.length, P.length ≤ i + j)).card ∧
    (calculate_correlation_results R P).1.length = P.length :=
  ⟨oob_card R P, by simp [calculate_correlation_results]⟩

/-- C6 witness: the theorem applied to R = [1, 2] and P = [1, 2, 3]. -/
theorem c6_witness :
    1 ≤ ([1, 2] : List ℚ).length ∧ 1 ≤ ([1, 2, 3] : List ℚ).length ∧
    ((calculate_correlation_results [1, 2] [1, 2, 3]).2 =
      ((Finset.range ([1, 2, 3] : List ℚ).length).filter
        (fun i => ∃ j < ([1, 2] : List ℚ).length,
          ([1, 2, 3] : List ℚ).length ≤ i + j)).card ∧
    (calculate_correlation_results [1, 2] [1, 2, 3]).1.length =
      ([1, 2, 3] : List ℚ).length) :=
  ⟨by decide, by decide, c6_theorem [1, 2] [1, 2, 3] (by decide) (by decide)⟩

/-- C8: for profiles of length W at least 1 and reference vectors of length
N at least 1, the out-of-range count returned by the Correlator is exactly
min W (N - 1). -/
theorem c8_theorem (R P : List ℚ) (hR : 1 ≤ R.length) (hP : 1 ≤ P.length) :
    (calculate_correlation_results R P).2 = min P.length (R.length - 1) := by
  rw [oob_card]
  have hset : (Finset.range P.length).filter
      (fun i => ∃ j < R.length, P.length ≤ i + j) =
      Finset.Ico (P.length - (R.length - 1)) P.length := by
    ext x
    simp only [Finset.mem_filter, Finset.mem_range, Finset.mem_Ico]
    constructor
    · rintro ⟨hx, j, hj, hij⟩
      omega
    · rintro ⟨hx1, hx2⟩
      exact ⟨hx2, R.length - 1, by omega, by omega⟩
  rw [hset, Nat.card_Ico]
  omega

/-- C8 witness: the theorem applied to R of length 5 and P of length 3,
where the count is min 3 4 = 3. -/
theorem c8_witness :
    1 ≤ ([1, 2, 3, 4, 5] : List ℚ).length ∧ 1 ≤ ([1, 2, 3] : List ℚ).length ∧
    (calculate_correlation_results [1, 2, 3, 4, 5] [1, 2, 3]).2 =
      min ([1, 2, 3] : List ℚ).length (([1, 2, 3, 4, 5] : List ℚ).length - 1) :=
  ⟨by decide, by decide,
    c8_theorem [1, 2, 3, 4, 5] [1, 2, 3] (by decide) (by decide)⟩

/-- C2 counterexample: the claim asserts that BOTH peak-detection
implementations re-sort the kept pair by index ascending.  On the smoothed
sequence [0, 7, 0, 9, 0, 5, 0] the detector finds the 3 maxima 1, 3, 5
with values 7, 9, 5; the top 2 by value are 3 then 1, and the
process_slices implementation returns them as [3, 1] — not re-sorted to
[1, 3].  On [0, 5, 0, 9, 0] exactly 2 maxima are found and the same
implementation again returns [3, 1] in descending-value order. -/
theorem c2_counterexample :
    2 < (find_peaks [0, 7, 0, 9, 0, 5, 0]).length ∧
    (find_peaks_in_correlation_slices [0, 7, 0, 9, 0, 5, 0]).1 = [3, 1] ∧
    ([3, 1] : List ℕ).insertionSort (· ≤ ·) = [1, 3] ∧
    ([3, 1] : List ℕ) ≠ [1, 3] ∧
    (find_peaks [0, 5, 0, 9, 0]).length = 2 ∧
    (find_peaks_in_correlation_slices [0, 5, 0, 9, 0]).1 = [3, 1] := by
  refine ⟨by decide, rfl, rfl, by decide, rfl, rfl⟩

/-- C2 amended: when the detector finds at least 2 local maxima of the
smoothed sequence, the process_slices implementation returns exactly the
2 candidates with the largest smoothed values in descending-value order
(without the re-sort by index), while the process_correlation_results
implementation returns those same 2 candidates re-sorted by index
ascending; in the more-than-2 case both report a status that records that
more than 2 were found and lists all candidate indices. -/
theorem c2_theorem (s : List ℚ) (h : 2 ≤ (find_peaks s).length) :
    (find_peaks_in_correlation_slices s).1 =
      (sortPeaksDesc s (find_peaks s)).take 2 ∧
    (find_peaks_in_correlation_results s).1 =
      ((sortPeaksDesc s (find_peaks s)).take 2).insertionSort (· ≤ ·) ∧
    List.Sorted (· ≤ ·) (find_peaks_in_correlation_results s).1 ∧
    (find_peaks_in_correlation_results s).1.Perm
      (find_peaks_in_correlation_slices s).1 ∧
    (find_peaks_in_correlation_slices s).1.length = 2 ∧
    (∀ c ∈ find_peaks s, c ∉ (find_peaks_in_correlation_slices s).1 →
      ∀ p ∈ (find_peaks_in_correlation_slices s).1, s.getD c 0 ≤ s.getD p 0) ∧
    (2 < (find_peaks s).length →
      (find_peaks_in_correlation_slices s).2 =
        moreThanTwoMsg ++ pyListStr (sortPeaksDesc s (find_peaks s)) ∧
      (find_peaks_in_correlation_results s).2 =
        moreThanTwoMsg ++ pyListStr (sortPeaksDesc s (find_peaks s))) := by
  have hsp_perm : (sortPeaksDesc s (find_peaks s)).Perm (find_peaks s) :=
    List.perm_insertionSort _ _
  have hsp_len : (sortPeaksDesc s (find_peaks s)).length = (find_peaks s).length :=
    hsp_perm.length_eq
  have hsorted : List.Sorted (peakLE s) (sortPeaksDesc s (find_peaks s)) :=
    List.sorted_insertionSort _ _
  have hslices : (find_peaks_in_correlation_slices s).1 =
      (sortPeaksDesc s (find_peaks s)).take 2 := by
    unfold find_peaks_in_correlation_slices
    by_cases hA : 2 < (sortPeaksDesc s (find_peaks s)).length
    · rw [if_pos hA]
    · rw [if_neg hA, if_neg (by omega), List.take_of_length_le (by omega)]
  have hresults : (find_peaks_in_correlation_results s).1 =
      ((sortPeaksDesc s (find_peaks s)).take 2).insertionSort (· ≤ ·) := by
    unfold find_peaks_in_correlation_results
    by_cases hA : 2 < (sortPeaksDesc s (find_peaks s)).length
    · rw [if_pos hA]
    · rw [if_neg hA, if_neg (by omega), List.take_of_length_le (by omega)]
  refine ⟨hslices, hresults, ?_, ?_, ?_, ?_, ?_⟩
  · rw [hresults]
    exact List.sorted_insertionSort _ _
  · rw [hresults, hslices]
    exact List.perm_insertionSort _ _
  · rw [hslices, List.length_take]
    omega
  · intro c hc hnotin p hp
    have hcsp : c ∈ sortPeaksDesc s (find_peaks s) :=
      (List.mem_insertionSort _).mpr hc
    rw [hslices] at hnotin hp
    have hc_drop : c ∈ (sortPeaksDesc s (find_peaks s)).drop 2 := by
      have hsplit := List.take_append_drop 2 (sortPeaksDesc s (find_peaks s))
      rw [← hsplit] at hcsp
      rcases List.mem_append.mp hcsp with h1 | h1
      · exact absurd h1 hnotin
      · exact h1
    have hpair : List.Pairwise (peakLE s)
        ((sortPeaksDesc s (find_peaks s)).take 2 ++
          (sortPeaksDesc s (find_peaks s)).drop 2) := by
      rw [List.take_append_drop]
      exact hsorted
    exact peakLE_to_le s p c ((List.pairwise_append.mp hpair).2.2 p hp c hc_drop)
  · intro hgt
    constructor
    · unfold find_peaks_in_correlation_slices
      rw [if_pos (by omega)]
    · unfold find_peaks_in_correlation_results
      rw [if_pos (by omega)]

/-- C2 witness: the amended theorem applied to the smoothed sequence
[0, 7, 0, 9, 0, 5, 0], which has 3 local maxima. -/
theorem c2_witness :
    2 ≤ (find_peaks [0, 7, 0, 9, 0, 5, 0]).length ∧
    (find_peaks_in_correlation_slices [0, 7, 0, 9, 0, 5, 0]).1 =
      (sortPeaksDesc [0, 7, 0, 9, 0, 5, 0]
        (find_peaks [0, 7, 0, 9, 0, 5, 0])).take 2 :=
  ⟨by decide, (c2_theorem [0, 7, 0, 9, 0, 5, 0] (by decide)).1⟩

/-- C3: evaluates the aggregator at a batch with exactly one strip that
produced exactly 2 peaks.  The Python guard tests the collections for
nonemptiness, so it enters the statistics branch and statistics.stdev
raises on the singleton collection, aborting the run — the code_bug the
claim exposes.  With zero such strips the guard fails and the report is
emitted gracefully without statistics, as the claim describes. -/
theorem c3_theorem :
    process_correlation_results
        [⟨0, [1, 2], [0, 1, 2, 3]⟩, ⟨1, [], [0, 0, 0]⟩] =
      Except.error ("stdev requires at least two data points") ∧
    process_correlation_results [⟨1, [], [0, 0, 0]⟩] =
      Except.ok ⟨[(1, none)], none⟩ :=
  ⟨rfl, rfl⟩

/-- C4 counterexample: the claim asserts the loader fails whenever a value
is not an integer or real number.  A boolean value is neither, yet the
loader accepts the mapping from key 0 to true, because the Python check
isinstance(value, (int, float)) is satisfied by bool, a subclass of int. -/
theorem c4_counterexample :
    validate_and_process_json [(("0" : String), JsonValue.bool true)] =
      Except.ok [(("0" : String), JsonValue.bool true)] ∧
    isIntOrReal (JsonValue.bool true) = false :=
  ⟨rfl, rfl⟩

/-- C4 amended: the loader fails with a ValidationError exactly when some
key is not composed entirely of decimal digits or some value fails the
Python numeric check, which accepts integers, real numbers AND booleans;
on failure no partial vector is returned, and on success the mapping is
returned verbatim in iteration order. -/
theorem c4_theorem (data : List (String × JsonValue)) :
    ((∀ kv ∈ data, pyIsDigit kv.1 = true ∧ isNumericPy kv.2 = true) →
      validate_and_process_json data = Except.ok data) ∧
    ((∃ kv ∈ data, pyIsDigit kv.1 = false ∨ isNumericPy kv.2 = false) →
      ∃ msg, validate_and_process_json data = Except.error msg) := by
  constructor
  · intro h
    apply validate_ok_of_valid
    intro kv hkv
    simp [invalidEntry, (h kv hkv).1, (h kv hkv).2]
  · rintro ⟨kv, hmem, hbad⟩
    apply validate_error_of_invalid
    refine ⟨kv, hmem, ?_⟩
    rcases hbad with h | h <;> simp [invalidEntry, h]

/-- C4 witness: the amended theorem applied to a valid singleton mapping
and to a mapping with a non-digit key. -/
theorem c4_witness :
    validate_and_process_json [(("7" : String), JsonValue.int 3)] =
      Except.ok [(("7" : String), JsonValue.int 3)] ∧
    (∃ msg, validate_and_process_json [(("a" : String), JsonValue.int 3)] =
      Except.error msg) :=
  ⟨(c4_theorem [(("7" : String), JsonValue.int 3)]).1 (by decide),
    (c4_theorem [(("a" : String), JsonValue.int 3)]).2
      ⟨(("a" : String), JsonValue.int 3), by simp, by decide⟩⟩

/-- C5: the Overlay Mapper derives the global shift as the floor of N / 2
from the reference mapping cardinality N; a strip with fewer than 2 peak
indices is skipped entirely; otherwise a marker is drawn exactly at each
coordinate peak + shift that lies inside [0, width), coordinates outside
being silently dropped. -/
theorem c5_theorem (data : List (String × JsonValue)) (width : ℕ)
    (peak_indices : List ℕ) :
    read_shift_from_json data = data.length / 2 ∧
    (peak_indices.length < 2 →
      overlay_strip (read_shift_from_json data) width peak_indices = none) ∧
    (2 ≤ peak_indices.length →
      ∃ drawn, overlay_strip (read_shift_from_json data) width peak_indices =
        some drawn ∧
        ∀ c, c ∈ drawn ↔
          ∃ p ∈ peak_indices, p + read_shift_from_json data = c ∧ c < width) := by
  refine ⟨rfl, ?_, ?_⟩
  · intro h
    unfold overlay_strip
    rw [if_pos h]
  · intro h
    refine ⟨_, by unfold overlay_strip; rw [if_neg (by omega)], ?_⟩
    intro c
    simp only [List.mem_filter, List.mem_map, decide_eq_true_eq]
    constructor
    · rintro ⟨⟨p, hp, hpc⟩, hcw⟩
      exact ⟨p, hp, hpc, hcw⟩
    · rintro ⟨p, hp, hpc, hcw⟩
      exact ⟨⟨p, hp, hpc⟩, hcw⟩

/-- C5 witness: a reference mapping with 7 keys gives shift 3; on a strip
of width 20 with peaks 10 and 19, the mapped coordinate 13 is drawn and
the mapped coordinate 22 is dropped. -/
theorem c5_witness :
    2 ≤ ([10, 19] : List ℕ).length ∧
    (∃ drawn, overlay_strip
        (read_shift_from_json [(("0" : String), JsonValue.int 1),
          (("1" : String), JsonValue.int 2), (("2" : String), JsonValue.int 3),
          (("3" : String), JsonValue.int 1), (("4" : String), JsonValue.int 2),
          (("5" : String), JsonValue.int 3), (("6" : String), JsonValue.int 1)])
        20 [10, 19] = some drawn ∧
      ∀ c, c ∈ drawn ↔ ∃ p ∈ ([10, 19] : List ℕ),
        p + read_shift_from_json [(("0" : String), JsonValue.int 1),
          (("1" : String), JsonValue.int 2), (("2" : String), JsonValue.int 3),
          (("3" : String), JsonValue.int 1), (("4" : String), JsonValue.int 2),
          (("5" : String), JsonValue.int 3), (("6" : String), JsonValue.int 1)] = c ∧
        c < 20) :=
  ⟨by decide, (c5_theorem _ 20 [10, 19]).2.2 (by decide)⟩

/-- C7 counterexample: the claim asserts every returned index is strictly
greater than BOTH neighbors.  On the smoothed sequence [0, 1, 1, 0] the
detector reports the flat plateau at its midpoint, index 1 (scipy
find_peaks reports the middle sample of a flat peak), and the value at
index 1 is not strictly greater than the equal value at index 2. -/
theorem c7_counterexample :
    find_peaks [0, 1, 1, 0] = [1] ∧
    (find_peaks_in_correlation_slices [0, 1, 1, 0]).1 = [1] ∧
    (find_peaks_in_correlation_results [0, 1, 1, 0]).1 = [1] ∧
    ¬ (([0, 1, 1, 0] : List ℚ).getD 2 0 < ([0, 1, 1, 0] : List ℚ).getD 1 0) :=
  ⟨rfl, rfl, rfl, by decide⟩

/-- C7 amended: every index either detector returns is an interior index
(the first and last positions are never returned) that is a weak local
maximum of the smoothed sequence, and more precisely the midpoint of a
maximal flat run lying strictly above the two samples flanking the run; a
strict local maximum is the special case of a run of length one. -/
theorem c7_theorem (s : List ℚ) (m : ℕ)
    (hm : m ∈ (find_peaks_in_correlation_slices s).1 ∨
      m ∈ (find_peaks_in_correlation_results s).1) :
    m ∈ find_peaks s ∧ 0 < m ∧ m + 1 < s.length ∧
    s.getD (m - 1) 0 ≤ s.getD m 0 ∧ s.getD (m + 1) 0 ≤ s.getD m 0 ∧
    ∃ l r, l ≤ m ∧ m ≤ r ∧ 1 ≤ l ∧ r + 2 ≤ s.length ∧ m = (l + r) / 2 ∧
      s.getD (l - 1) 0 < s.getD l 0 ∧ s.getD (r + 1) 0 < s.getD r 0 ∧
      (∀ k, l ≤ k → k ≤ r → s.getD k 0 = s.getD l 0) := by
  have hfp : m ∈ find_peaks s := by
    rcases hm with h | h
    · exact mem_detector_sub_slices s m h
    · exact mem_detector_sub_results s m h
  rcases (plateauPeakAt_iff s m).mp ((mem_find_peaks_iff s m).mp hfp) with
    ⟨l, r, hl, hlr, hrlen, hleft, hright, hflat, hmid⟩
  have hlm : l ≤ m := by omega
  have hmr : m ≤ r := by omega
  have hmv : s.getD m 0 = s.getD l 0 := run_value s l r m hflat hlm hmr
  refine ⟨hfp, by omega, by omega, ?_, ?_, l, r, hlm, hmr, hl, hrlen, hmid,
    hleft, hright, fun k hk1 hk2 => run_value s l r k hflat hk1 hk2⟩
  · rcases Nat.eq_or_lt_of_le hlm with h | h
    · rw [← h] at hmv ⊢
      exact le_of_lt (hmv ▸ hleft)
    · have hprev : s.getD (m - 1) 0 = s.getD l 0 :=
        run_value s l r (m - 1) hflat (by omega) (by omega)
      rw [hprev, hmv]
  · rcases Nat.eq_or_lt_of_le hmr with h | h
    · rw [h]
      exact le_of_lt hright
    · have hnext : s.getD (m + 1) 0 = s.getD l 0 :=
        run_value s l r (m + 1) hflat (by omega) (by omega)
      rw [hnext, hmv]

/-- C7 witness: the amended theorem applied to the plateau sequence
[0, 1, 1, 0] at the returned index 1. -/
theorem c7_witness :
    (1 ∈ (find_peaks_in_correlation_slices [0, 1, 1, 0]).1 ∨
      1 ∈ (find_peaks_in_correlation_results [0, 1, 1, 0]).1) ∧
    (1 ∈ find_peaks [0, 1, 1, 0] ∧ 0 < 1 ∧ 1 + 1 < ([0, 1, 1, 0] : List ℚ).length ∧
    ([0, 1, 1, 0] : List ℚ).getD 0 0 ≤ ([0, 1, 1, 0] : List ℚ).getD 1 0 ∧
    ([0, 1, 1, 0] : List ℚ).getD 2 0 ≤ ([0, 1, 1, 0] : List ℚ).getD 1 0 ∧
    ∃ l r, l ≤ 1 ∧ 1 ≤ r ∧ 1 ≤ l ∧ r + 2 ≤ ([0, 1, 1, 0] : List ℚ).length ∧
      1 = (l + r) / 2 ∧
      ([0, 1, 1, 0] : List ℚ).getD (l - 1) 0 < ([0, 1, 1, 0] : List ℚ).getD l 0 ∧
      ([0, 1, 1, 0] : List ℚ).getD (r + 1) 0 < ([0, 1, 1, 0] : List ℚ).getD r 0 ∧
      (∀ k, l ≤ k → k ≤ r →
        ([0, 1, 1, 0] : List ℚ).getD k 0 = ([0, 1, 1, 0] : List ℚ).getD l 0)) := by
  have hmem : 1 ∈ (find_peaks_in_correlation_slices [0, 1, 1, 0]).1 := by decide
  have hconc := c7_theorem [0, 1, 1, 0] 1 (Or.inl hmem)
  have hgd : ([0, 1, 1, 0] : List ℚ).getD (1 - 1) 0 =
      ([0, 1, 1, 0] : List ℚ).getD 0 0 := rfl
  exact ⟨Or.inl hmem, hconc.1, hconc.2.1, hconc.2.2.1, hgd ▸ hconc.2.2.2.1,
    hconc.2.2.2.2.1, hconc.2.2.2.2.2⟩

/-- C9: for a reference mapping whose keys are all decimal-digit strings
and whose values are all booleans, the loader accepts the mapping and
returns it verbatim rather than failing validation, because Python bool
is a subclass of int and passes the isinstance numeric check. -/
theorem c9_theorem (data : List (String × JsonValue))
    (hk : ∀ kv ∈ data, pyIsDigit kv.1 = true)
    (hb : ∀ kv ∈ data, ∃ b : Bool, kv.2 = JsonValue.bool b) :
    validate_and_process_json data = Except.ok data := by
  apply validate_ok_of_valid
  intro kv hkv
  rcases hb kv hkv with ⟨b, hbv⟩
  simp [invalidEntry, hk kv hkv, hbv, isNumericPy]

/-- C9 witness: the theorem applied to the mapping with keys 0 and 1 and
values true and false. -/
theorem c9_witness :
    validate_and_process_json [(("0" : String), JsonValue.bool true),
        (("1" : String), JsonValue.bool false)] =
      Except.ok [(("0" : String), JsonValue.bool true),
        (("1" : String), JsonValue.bool false)] :=
  c9_theorem [(("0" : String), JsonValue.bool true),
    (("1" : String), JsonValue.bool false)] (by decide) (by decide)

/-- C10: on every smoothed correlation sequence the two
find_peaks_in_correlation implementations return the same peak indices up
to order (a permutation, hence the same set) and character-identical
status strings. -/
theorem c10_theorem (s : List ℚ) :
    (find_peaks_in_correlation_slices s).1.Perm
      (find_peaks_in_correlation_results s).1 ∧
    (find_peaks_in_correlation_slices s).2 =
      (find_peaks_in_correlation_results s).2 := by
  unfold find_peaks_in_correlation_slices find_peaks_in_correlation_results
  by_cases h1 : 2 < (sortPeaksDesc s (find_peaks s)).length
  · rw [if_pos h1, if_pos h1]
    exact ⟨(List.perm_insertionSort _ _).symm, rfl⟩
  · rw [if_neg h1, if_neg h1]
    by_cases h2 : (sortPeaksDesc s (find_peaks s)).length < 2
    · rw [if_pos h2, if_pos h2]
      exact ⟨List.Perm.refl _, rfl⟩
    · rw [if_neg h2, if_neg h2]
      exact ⟨(List.perm_insertionSort _ _).symm, rfl⟩

end Scribe
